import Mathlib

/-!
Shallow embedding of the content pipeline of the `stevegoo.de` blog repository:
slug validation/normalisation (src/lib/content/slug utilities), reading-time
estimation (src/lib/content/reading-time.ts), front-matter extraction and
schema validation, and the markdown post repository
(src/content/markdown.repository.ts, src/content/post.types.ts,
src/content/post.repository.ts).

Strings are modelled as Lean `String`/`List Char`; JavaScript numbers that the
code only ever uses as non-negative integers (page numbers, counts, minutes)
are modelled as `Nat` with explicit ceiling division where `Math.ceil`
appears. Documents are modelled with `\n` line endings (the source also
accepts `\r\n`; no claim depends on that).
-/

/- ===================== SlugCodec (slug.ts) ===================== -/

/-- `true` for a lowercase ASCII letter or a digit — the character class
`[a-z0-9]` used by the slug regular expressions. -/
def isLowerAlnum (c : Char) : Bool :=
  ('a' ≤ c && c ≤ 'z') || ('0' ≤ c && c ≤ '9')

/-- The character class `[a-z0-9-]`: characters that survive
`normaliseSlug`'s replacement step. -/
def isSlugChar (c : Char) : Bool :=
  isLowerAlnum c || c = '-'

/-- Tail of the slug regular expression
`^[a-z0-9](?:[a-z0-9]|-(?=[a-z0-9]))*$` from slug.ts: after the first
character, every character must be `[a-z0-9]`, or a hyphen immediately
followed by an `[a-z0-9]` character (the lookahead). -/
def validSlugAux : List Char → Bool
  | [] => true
  | c :: rest =>
    if isLowerAlnum c then validSlugAux rest
    else if c = '-' then
      match rest with
      | [] => false
      | d :: _ => isLowerAlnum d && validSlugAux rest
    else false

/-- Embeds `isValidSlug` from slug.ts: empty strings are rejected, otherwise
the string must match `VALID_SLUG_REGEX` (first character `[a-z0-9]`, then
`validSlugAux`). -/
def isValidSlug (raw : String) : Bool :=
  match raw.data with
  | [] => false
  | c :: rest => isLowerAlnum c && validSlugAux rest

/-- Embeds `String.prototype.toLowerCase` as used on slug inputs: ASCII
`A`–`Z` map to `a`–`z`. (Unicode case mapping can differ on exotic
characters, but every character outside `[a-z0-9-]` is replaced by a hyphen
in the next step of `normaliseSlug`, so the difference never reaches any
result these proofs state.) -/
def jsToLower (c : Char) : Char :=
  if 'A' ≤ c && c ≤ 'Z' then Char.ofNat (c.toNat + 32) else c

/-- Embeds `.replace(/[^a-z0-9-]/g, "-")` on one character. -/
def slugReplace (c : Char) : Char :=
  if isSlugChar c then c else '-'

/-- Embeds the second `.replace` of `normaliseSlug` (pattern: two or more
consecutive hyphens, global): collapse each run of consecutive hyphens into
a single hyphen. -/
def collapseDashes : List Char → List Char
  | [] => []
  | [c] => [c]
  | c :: d :: rest =>
    if c = '-' && d = '-' then collapseDashes (d :: rest)
    else c :: collapseDashes (d :: rest)

/-- Embeds the third `.replace` of `normaliseSlug` (pattern: a leading
hyphen run or a trailing hyphen run, global): strip the leading run and the
trailing run of hyphens. -/
def stripEdgeDashes (l : List Char) : List Char :=
  ((l.dropWhile (fun c => c = '-')).reverse.dropWhile (fun c => c = '-')).reverse

/-- Embeds `normaliseSlug` from slug.ts: lowercase, replace every character
outside `[a-z0-9-]` with a hyphen, collapse hyphen runs, strip edge hyphens;
`null` (here `none`) when the result is empty. -/
def normaliseSlug (raw : String) : Option String :=
  let normalised :=
    stripEdgeDashes (collapseDashes ((raw.data.map jsToLower).map slugReplace))
  if normalised.length > 0 then some (String.mk normalised) else none

/- ===================== ReadingTimeEstimator (reading-time.ts) ============ -/

/-- The constant `AVERAGE_WORDS_PER_MINUTE` from reading-time.ts. -/
def AVERAGE_WORDS_PER_MINUTE : Nat := 238

/-- Whitespace as matched by the `\s` class and `trim()` on the content the
estimator receives (space, tab, newline, carriage return, form feed,
vertical tab). -/
def isWs (c : Char) : Bool :=
  c = ' ' || c = '\t' || c = '\n' || c = '\r' || c = '\x0b' || c = '\x0c'

/-- Embeds `String.prototype.trim`: drop whitespace from both ends. -/
def jsTrim (l : List Char) : List Char :=
  ((l.dropWhile isWs).reverse.dropWhile isWs).reverse

/-- Embeds `.split(/\s+/)`: the separator is a maximal whitespace run.
Written as a two-state scanner so that it is structurally recursive:
`inSep = true` means the scanner is inside a separator run (the token before
it has already been emitted), `inSep = false` means it is reading a token
whose characters so far are held reversed in `acc`. A leading separator
emits a leading empty token and a trailing separator emits a trailing empty
token, exactly as the JavaScript split does. -/
def splitWsAux : List Char → Bool → List Char → List (List Char)
  | [], true, _ => [[]]
  | [], false, acc => [acc.reverse]
  | c :: rest, true, _ =>
    if isWs c then splitWsAux rest true []
    else splitWsAux rest false [c]
  | c :: rest, false, acc =>
    if isWs c then acc.reverse :: splitWsAux rest true []
    else splitWsAux rest false (c :: acc)

/-- Embeds `Math.ceil(a / b)` for natural `a` and positive natural `b`
(the estimator always divides by 238). -/
def jsCeilDiv (a b : Nat) : Nat := (a + b - 1) / b

/-- Embeds `calculateReadingTime` from reading-time.ts:
`content.trim().split(/\s+/).filter(Boolean).length` words, then
`Math.max(1, Math.ceil(wordCount / AVERAGE_WORDS_PER_MINUTE))`. -/
def calculateReadingTime (content : String) : Nat :=
  let wordCount :=
    ((splitWsAux (jsTrim content.data) false []).filter
      (fun w => !w.isEmpty)).length
  max 1 (jsCeilDiv wordCount AVERAGE_WORDS_PER_MINUTE)

/-- The spec's description of the word count (§4.4) as a two-state counter:
the number of maximal runs of non-whitespace characters ("split on runs of
whitespace, drop empty tokens, count remaining tokens"); `inWord` records
whether the previous character belonged to a word. Stated independently of
the embedded JavaScript expression so the two can be proved to agree. -/
def runCountAux : List Char → Bool → Nat
  | [], _ => 0
  | c :: rest, inWord =>
    if isWs c then runCountAux rest false
    else (if inWord then 0 else 1) + runCountAux rest true

/-- The spec's word count of a raw string: number of maximal non-whitespace
runs. -/
def runCount (l : List Char) : Nat := runCountAux l false

example : isValidSlug "hello-world" = true := by decide
example : isValidSlug "-hello" = false := by decide
example : isValidSlug "hello--world" = false := by decide
example : isValidSlug "a" = true := by decide
example : normaliseSlug "Hello World" = some "hello-world" := by decide
example : normaliseSlug "post: 2024!" = some "post-2024" := by decide
example : normaliseSlug "---" = none := by decide
example : calculateReadingTime "" = 1 := by decide
example : calculateReadingTime "Hello world" = 1 := by decide
example : runCount "  a b  ".data = 2 := by decide

/- ============ Front-matter values and PostFrontmatterSchema ============ -/

/-- A parsed metadata value as zod sees it: a string, a boolean, an array,
or null. (Missing keys are represented by `Option` at the lookup site, the
way zod distinguishes `undefined` from `null`.) -/
inductive JVal where
  | jstr (s : String)
  | jbool (b : Bool)
  | jarr (xs : List JVal)
  | jnull

/-- The regular expression `ISO_DATE_REGEX` from post.types.ts: exactly
four digits, a hyphen, two digits, a hyphen, two digits. -/
def isIsoDate (s : String) : Bool :=
  match s.data with
  | [y1, y2, y3, y4, h1, m1, m2, h2, d1, d2] =>
    y1.isDigit && y2.isDigit && y3.isDigit && y4.isDigit && h1 = '-' &&
    m1.isDigit && m2.isDigit && h2 = '-' && d1.isDigit && d2.isDigit
  | _ => false

/-- Modelled from the spec: `externalUrl` must be an absolute URL string
(§4.2). The source checks this with zod's `.url()`, which delegates to the
WHATWG URL parser — third-party code absent from src/. Modelled as a
non-empty ASCII-letter scheme followed by a colon; the only consequence the
claims use is that an accepted URL is a non-empty string. -/
def isUrlModel (s : String) : Bool :=
  s.data.takeWhile Char.isAlpha ≠ [] &&
    (s.data.dropWhile Char.isAlpha).head? = some ':'

/-- The validated front matter: `z.infer<typeof PostFrontmatterSchema>`
from post.types.ts. `updatedAt` and `externalUrl` are `.nullish()` (null and
undefined both become `none`); `tags` and `draft` carry their defaults. -/
structure PostFrontmatter where
  title : String
  description : String
  publishedAt : String
  updatedAt : Option String
  tags : List String
  draft : Bool
  externalUrl : Option String
deriving DecidableEq, Repr

/-- `title` and `description` fields: `z.string().min(1)`. -/
def parseNonEmptyString : Option JVal → Option String
  | some (JVal.jstr s) => if 1 ≤ s.length then some s else none
  | _ => none

/-- `publishedAt` field: `z.string().regex(ISO_DATE_REGEX)`. -/
def parseIsoDateField : Option JVal → Option String
  | some (JVal.jstr s) => if isIsoDate s then some s else none
  | _ => none

/-- `updatedAt` field: `z.string().regex(ISO_DATE_REGEX).nullish()` —
missing or null is accepted as `none`; a string must match the date
pattern; any other value is rejected. -/
def parseNullishIsoDate : Option JVal → Option (Option String)
  | none => some none
  | some JVal.jnull => some none
  | some (JVal.jstr s) => if isIsoDate s then some (some s) else none
  | some _ => none

/-- `tags` field: `z.array(z.string()).default([])` — missing becomes `[]`,
an array must contain only strings, anything else (including null) is
rejected. -/
def parseTagsField : Option JVal → Option (List String)
  | none => some []
  | some (JVal.jarr xs) =>
    xs.mapM (fun v => match v with | JVal.jstr s => some s | _ => none)
  | some _ => none

/-- `draft` field: `z.boolean().default(false)` — missing becomes `false`,
a boolean is taken as is, anything else (including null) is rejected. -/
def parseDraftField : Option JVal → Option Bool
  | none => some false
  | some (JVal.jbool b) => some b
  | some _ => none

/-- `externalUrl` field: `z.string().url().nullish()`. -/
def parseNullishUrl : Option JVal → Option (Option String)
  | none => some none
  | some JVal.jnull => some none
  | some (JVal.jstr s) => if isUrlModel s then some (some s) else none
  | some _ => none

/-- Key lookup in the parsed metadata object. Entries are consed with the
most recent assignment first, so `lookup` returns the latest value for a
duplicated key, as assignment into a JavaScript object does. -/
def lookupKey (obj : List (String × JVal)) (k : String) : Option JVal :=
  obj.lookup k

/-- Embeds `PostFrontmatterSchema.safeParse` from post.types.ts: every
field must validate (zod reports all field errors, but the repository only
branches on success/failure, so failure is collapsed to `none`); unknown
keys are stripped. -/
def postFrontmatterSafeParse (obj : List (String × JVal)) :
    Option PostFrontmatter := do
  let title ← parseNonEmptyString (lookupKey obj "title")
  let description ← parseNonEmptyString (lookupKey obj "description")
  let publishedAt ← parseIsoDateField (lookupKey obj "publishedAt")
  let updatedAt ← parseNullishIsoDate (lookupKey obj "updatedAt")
  let tags ← parseTagsField (lookupKey obj "tags")
  let draft ← parseDraftField (lookupKey obj "draft")
  let externalUrl ← parseNullishUrl (lookupKey obj "externalUrl")
  pure { title, description, publishedAt, updatedAt, tags, draft, externalUrl }

/- ===================== Metadata block parsing ===================== -/

/-- Word characters, the class matched by `\w`. -/
def isWordChar (c : Char) : Bool :=
  c.isAlpha || c.isDigit || c = '_'

/-- Quote characters stripped from scalar values. -/
def isQuote (c : Char) : Bool :=
  c = '\'' || c = '"'

/-- Strip one surrounding quote from each end of a scalar value (the
replace of a leading-or-trailing quote, global, in the line parser). -/
def stripQuotePair (l : List Char) : List Char :=
  let l1 := match l with
    | c :: rest => if isQuote c then rest else l
    | [] => []
  match l1.reverse with
  | c :: rest => if isQuote c then rest.reverse else l1
  | [] => []

/-- A metadata list-item line: whitespace, a hyphen, whitespace, then the
item text (trimmed) — the `  - value` shape of §4.2. -/
def parseArrayItemLine (l : List Char) : Option String :=
  match l with
  | c :: _ =>
    if isWs c then
      match l.dropWhile isWs with
      | '-' :: rest =>
        match rest with
        | d :: _ =>
          if isWs d then
            let item := rest.dropWhile isWs
            if item = [] then none else some (String.mk (jsTrim item))
          else none
        | [] => none
      | _ => none
    else none
  | [] => none

/-- A metadata scalar line: a non-empty run of word characters, a colon,
then the value (trimmed) — the `key: value` shape of §4.2. -/
def parseKeyValueLine (l : List Char) : Option (String × String) :=
  match l.takeWhile isWordChar, l.dropWhile isWordChar with
  | [], _ => none
  | key, ':' :: rest => some (String.mk key, String.mk (jsTrim rest))
  | _, _ => none

/-- Write a pending array to the result object (the flush step of the line
parser's state machine). -/
def yamlFlush (currentKey : Option String) (inArray : Bool)
    (arrayValues : List String) (result : List (String × JVal)) :
    List (String × JVal) :=
  match currentKey, inArray with
  | some k, true => (k, JVal.jarr (arrayValues.map JVal.jstr)) :: result
  | _, _ => result

/-- Modelled from the spec: the metadata-block parser (§4.2 Parse). The
repository delegates to the third-party `yaml` package, absent from src/;
the model follows the spec's line-oriented grammar — `key: value` scalars
with `true`/`false` recognised literally and surrounding quotes stripped,
`key:` followed by `  - value` lines building an array of trimmed strings,
and blank or unrecognised lines ignored. (The repository's own hand-rolled
parser in src/lib/content/frontmatter.ts implements this same grammar.)
State: the current array key, whether an array is being collected, the
items collected so far, and the object built so far. -/
def parseYamlAux : List String → Option String → Bool → List String →
    List (String × JVal) → List (String × JVal)
  | [], currentKey, inArray, arrayValues, result =>
    yamlFlush currentKey inArray arrayValues result
  | line :: rest, currentKey, inArray, arrayValues, result =>
    match parseArrayItemLine line.data, currentKey, inArray with
    | some item, some _, true =>
      parseYamlAux rest currentKey true (arrayValues ++ [item]) result
    | _, _, _ =>
      let flushed := yamlFlush currentKey inArray arrayValues result
      match parseKeyValueLine line.data with
      | some (k, v) =>
        if v = "" then parseYamlAux rest (some k) true [] flushed
        else if v = "true" then
          parseYamlAux rest none false [] ((k, JVal.jbool true) :: flushed)
        else if v = "false" then
          parseYamlAux rest none false [] ((k, JVal.jbool false) :: flushed)
        else
          parseYamlAux rest none false []
            ((k, JVal.jstr (String.mk (stripQuotePair v.data))) :: flushed)
      | none => parseYamlAux rest none false [] flushed

/-- Embeds `.split("\n")`: cut the text at every newline. -/
def splitLinesAux : List Char → List Char → List String
  | [], acc => [String.mk acc.reverse]
  | c :: rest, acc =>
    if c = '\n' then String.mk acc.reverse :: splitLinesAux rest []
    else splitLinesAux rest (c :: acc)

/-- The metadata-block parser applied to the block's text, line by line. -/
def parseYamlModel (s : String) : List (String × JVal) :=
  parseYamlAux (splitLinesAux s.data []) none false [] []

/- ============== Post, PostSummary and pagination types ============== -/

/-- The `Post` entity from post.types.ts. The branded `PostSlug` carries no
runtime content, so the slug is a plain string here. -/
structure Post where
  slug : String
  title : String
  description : String
  content : String
  publishedAt : String
  updatedAt : Option String
  tags : List String
  draft : Bool
  externalUrl : Option String
  readingTimeMinutes : Nat
deriving DecidableEq, Repr

/-- Embeds `createPostSlug` from post.types.ts: a brand cast with no runtime
effect — the raw string is returned unchanged. -/
def createPostSlug (raw : String) : String := raw

/-- `PostSummary = Omit<Post, "content">` from post.types.ts. -/
structure PostSummary where
  slug : String
  title : String
  description : String
  publishedAt : String
  updatedAt : Option String
  tags : List String
  draft : Bool
  externalUrl : Option String
  readingTimeMinutes : Nat
deriving DecidableEq, Repr

/-- Embeds `MarkdownPostRepository.toPostSummary`: destructure `content`
away and keep every other field. -/
def toPostSummary (post : Post) : PostSummary :=
  { slug := post.slug, title := post.title, description := post.description,
    publishedAt := post.publishedAt, updatedAt := post.updatedAt,
    tags := post.tags, draft := post.draft, externalUrl := post.externalUrl,
    readingTimeMinutes := post.readingTimeMinutes }

/-- `PaginationParams` from post.repository.ts: 1-based page number and
page size. -/
structure PaginationParams where
  page : Nat
  perPage : Nat
deriving DecidableEq, Repr

/-- `PaginatedResult<T>` from post.repository.ts. -/
structure PaginatedResult (α : Type) where
  items : List α
  total : Nat
  page : Nat
  perPage : Nat
  totalPages : Nat
deriving DecidableEq, Repr

/-- Embeds `MarkdownPostRepository.paginate`: defaults `page = 1` and
`perPage = 10` when no params are passed, `offset = (page - 1) * perPage`,
`items.slice(offset, offset + perPage)`, and
`totalPages = Math.max(1, Math.ceil(total / perPage))`. (`Math.ceil` of the
real quotient is `jsCeilDiv` for `perPage ≥ 1`; the source divides by a
caller-supplied `perPage` and every claim assumes it is at least 1.) -/
def paginate {α : Type} (items : List α) (params : Option PaginationParams) :
    PaginatedResult α :=
  let page := match params with | some p => p.page | none => 1
  let perPage := match params with | some p => p.perPage | none => 10
  let offset := (page - 1) * perPage
  { items := (items.drop offset).take perPage
    total := items.length
    page := page
    perPage := perPage
    totalPages := max 1 (jsCeilDiv items.length perPage) }

/- ===================== MarkdownPostRepository ===================== -/

/-- Finds the first metadata-closing delimiter `"\n---\n"` in the text after
the opening delimiter, returning the text before it (the metadata block, the
non-greedy first group of the extraction regex) and the text after it (the
body). -/
def findFmDelim : List Char → Option (List Char × List Char)
  | [] => none
  | c :: rest =>
    if c = '\n' && rest.take 4 = ['-', '-', '-', '\n'] then
      some ([], rest.drop 4)
    else
      (findFmDelim rest).map (fun p => (c :: p.1, p.2))

/-- Embeds `MarkdownPostRepository.extractFrontmatter`: the document must
start with a `---` line; the metadata block runs to the first closing `---`
line (the regex's non-greedy group); the rest is the body. When the regex
does not match, the frontmatter is the empty object and the whole document
is the body. `none` models the throw on a metadata block the parser rejects;
the line-grammar model of the third-party parser is total, so extraction
itself always succeeds here (a block the real parser would reject instead
fails schema validation, and is dropped the same way). -/
def extractFrontmatter (content : String) : Option (List (String × JVal) × String) :=
  match content.data with
  | '-' :: '-' :: '-' :: '\n' :: rest =>
    match findFmDelim rest with
    | some (fmText, bodyChars) =>
      some (parseYamlModel (String.mk fmText), String.mk bodyChars)
    | none => some ([], content)
  | _ => some ([], content)

/-- Embeds `path.basename(filePath, ".md")` applied to a directory entry:
strip a trailing `.md` extension when present. -/
def stripMdExt (name : String) : String :=
  if name.data.reverse.take 3 = ['d', 'm', '.'] then
    String.mk (name.data.take (name.data.length - 3))
  else name

/-- The `.endsWith(".md")` filter of `getAllPosts`. -/
def endsWithMd (name : String) : Bool :=
  name.data.reverse.take 3 = ['d', 'm', '.']

/-- JavaScript truthiness of a `string | null | undefined` value: null,
undefined and the empty string are falsy. -/
def jsTruthyStr : Option String → Bool
  | none => false
  | some s => !(s == "")

/-- Modelled from the spec: the MarkdownRenderer (§4.3) — the source's
`processMarkdown` composes the third-party unified/remark/rehype pipeline,
absent from src/. Only the behaviour the claims exercise is modelled: a body
with no content (empty or only whitespace) parses to an empty tree and
serialises to the empty string; any other body serialises to non-trivial
markup. -/
def processMarkdown (body : String) : String :=
  if jsTrim body.data = [] then "" else "<p>" ++ body ++ "</p>"

/-- Embeds `MarkdownPostRepository.parsePostFile` for a directory entry
with name `fileName` and contents `content`: extract and validate the front
matter (`none` models the `FrontmatterError` throw), derive the slug from
the file name via `createPostSlug`, skip rendering and reading-time input
for external posts, and assemble the `Post`. The markdown renderer is a
parameter so that renderer-independence can be stated. -/
def parsePostFile (render : String → String) (fileName content : String) :
    Option Post :=
  match extractFrontmatter content with
  | none => none
  | some (frontmatter, body) =>
    match postFrontmatterSafeParse frontmatter with
    | none => none
    | some data =>
      some { slug := createPostSlug (stripMdExt fileName),
             title := data.title,
             description := data.description,
             content := if jsTruthyStr data.externalUrl then ""
               else render body,
             publishedAt := data.publishedAt,
             updatedAt := data.updatedAt,
             tags := data.tags,
             draft := data.draft,
             externalUrl := data.externalUrl,
             readingTimeMinutes := calculateReadingTime
               (if jsTruthyStr data.externalUrl then "" else body) }

/-- The posts directory as the repository sees it: `none` when
`fs.existsSync(postsDir)` is false, otherwise the `readdirSync` listing as
(file name, file contents) pairs in iteration order. -/
def FileSysState : Type := Option (List (String × String))

/-- Embeds `MarkdownPostRepository.getAllPosts`: an empty list when the
directory is missing; otherwise parse every `.md` entry, dropping (not
propagating) entries whose parse throws — the try/catch-continue loop. -/
def getAllPosts (render : String → String) (state : FileSysState) : List Post :=
  match state with
  | none => []
  | some entries =>
    (entries.filter (fun f => endsWithMd f.1)).filterMap
      (fun f => parsePostFile render f.1 f.2)

/-- Code-point comparison of strings, `a ≤ b`: embeds
`a.localeCompare(b) <= 0` on the `YYYY-MM-DD` date strings the repository
sorts by (locale collation agrees with code-point order on them). -/
def lexLe : List Char → List Char → Bool
  | [], _ => true
  | _ :: _, [] => false
  | a :: as, b :: bs => if a = b then lexLe as bs else decide (a < b)

/-- The sort comparator of `findAll` and `findPublished`:
`(a, b) => b.publishedAt.localeCompare(a.publishedAt)` puts `a` no later
than `b` exactly when `b.publishedAt ≤ a.publishedAt` — descending by
date. -/
def dateDescLe (a b : Post) : Bool :=
  lexLe b.publishedAt.data a.publishedAt.data

/-- The sort comparator as a relation. -/
def PostDateGe (a b : Post) : Prop := dateDescLe a b = true

instance : DecidableRel PostDateGe :=
  fun a b => instDecidableEqBool (dateDescLe a b) true

/-- The repository's sort. The JavaScript `Array.prototype.sort` is stable,
and a stable sort with respect to a total, transitive comparator is a
uniquely determined function, so any stable sorting algorithm is an exact
model; insertion sort is used because it is structurally recursive and so
kernel-computable. -/
def sortByDateDesc (posts : List Post) : List Post :=
  List.insertionSort PostDateGe posts

/-- Embeds `MarkdownPostRepository.findAll`: every discovered post, sorted
by `publishedAt` descending (stable, as the JavaScript sort is). -/
def findAll (render : String → String) (state : FileSysState) : List Post :=
  sortByDateDesc (getAllPosts render state)

/-- Embeds `MarkdownPostRepository.findBySlug`: first post of the full
unfiltered set whose slug matches, else `null`. -/
def findBySlug (render : String → String) (state : FileSysState)
    (slug : String) : Option Post :=
  (getAllPosts render state).find? (fun post => post.slug == slug)

/-- Embeds `MarkdownPostRepository.findPublished`: filter out drafts, sort
descending by `publishedAt`, project to `PostSummary`, paginate. -/
def findPublished (render : String → String) (state : FileSysState)
    (params : Option PaginationParams) : PaginatedResult PostSummary :=
  let published :=
    sortByDateDesc ((getAllPosts render state).filter (fun post => !post.draft))
  paginate (published.map toPostSummary) params

example :
    parsePostFile processMarkdown "my-post.md"
      "---\ntitle: Test\ndescription: A post\npublishedAt: 2024-01-15\n---\nBody text" =
    some { slug := "my-post", title := "Test", description := "A post",
           content := "<p>Body text</p>", publishedAt := "2024-01-15",
           updatedAt := none, tags := [], draft := false, externalUrl := none,
           readingTimeMinutes := 1 } := by decide

/- =============== Category-aware repository (spec-modelled) =============== -/

/-- Modelled from the spec: the `Post` entity with its optional `category`
classification (§3). The category-aware repository (the `category` field
and `findByCategory`) is exercised by the repository's test files, but the
module implementing it is absent from src/, so it is modelled here from
§3–§4.5 of the spec, next to the category-free `Post` taken from
post.types.ts. -/
structure CatPost where
  slug : String
  title : String
  description : String
  content : String
  publishedAt : String
  updatedAt : Option String
  tags : List String
  category : Option String
  draft : Bool
  externalUrl : Option String
  readingTimeMinutes : Nat
deriving DecidableEq, Repr

/-- Modelled from the spec: `PostSummary` for the category-aware entity —
`Post` minus `content` (§3). -/
structure CatPostSummary where
  slug : String
  title : String
  description : String
  publishedAt : String
  updatedAt : Option String
  tags : List String
  category : Option String
  draft : Bool
  externalUrl : Option String
  readingTimeMinutes : Nat
deriving DecidableEq, Repr

/-- The `content`-dropping projection for the category-aware entity. -/
def toCatPostSummary (post : CatPost) : CatPostSummary :=
  { slug := post.slug, title := post.title, description := post.description,
    publishedAt := post.publishedAt, updatedAt := post.updatedAt,
    tags := post.tags, category := post.category, draft := post.draft,
    externalUrl := post.externalUrl,
    readingTimeMinutes := post.readingTimeMinutes }

/-- Descending-by-`publishedAt` comparator for the category-aware entity. -/
def catDateDescLe (a b : CatPost) : Bool :=
  lexLe b.publishedAt.data a.publishedAt.data

/-- The comparator as a relation. -/
def CatPostDateGe (a b : CatPost) : Prop := catDateDescLe a b = true

instance : DecidableRel CatPostDateGe :=
  fun a b => instDecidableEqBool (catDateDescLe a b) true

/-- Stable descending-date sort for the category-aware entity (see
`sortByDateDesc`). -/
def sortCatByDateDesc (posts : List CatPost) : List CatPost :=
  List.insertionSort CatPostDateGe posts

/-- Modelled from the spec: `findPublished` over the category-aware entity
(§4.5) — filter to `draft === false`, sort descending by `publishedAt`,
project, paginate. -/
def findPublishedCat (posts : List CatPost) (params : Option PaginationParams) :
    PaginatedResult CatPostSummary :=
  paginate
    ((sortCatByDateDesc (posts.filter (fun post => !post.draft))).map
      toCatPostSummary) params

/-- Modelled from the spec: `findByCategory` (§4.5) — same as
`findPublished` with the additional filter `category === requested`; a
document with no category (`category` null) never matches, because
`null === requested` is false for every requested label. -/
def findByCategory (category : String) (posts : List CatPost)
    (params : Option PaginationParams) : PaginatedResult CatPostSummary :=
  paginate
    ((sortCatByDateDesc (posts.filter
        (fun post => !post.draft && post.category == some category))).map
      toCatPostSummary) params

/-- A text of `n` whitespace-separated single-letter words, used to
evaluate the reading-time estimator at the spec's word counts. -/
def sampleWordsData : Nat → List Char
  | 0 => []
  | 1 => ['w']
  | n + 2 => 'w' :: ' ' :: sampleWordsData (n + 1)

/-- The same text as a string. -/
def sampleWords (n : Nat) : String := String.mk (sampleWordsData n)

/- ===================== General lemmas ===================== -/

theorem lexLe_total (a : List Char) : ∀ b, lexLe a b = true ∨ lexLe b a = true := by
  induction a with
  | nil => intro b; left; rfl
  | cons x xs ih =>
    intro b
    cases b with
    | nil => right; rfl
    | cons y ys =>
      by_cases hxy : x = y
      · subst hxy
        simpa [lexLe] using ih ys
      · rcases Ne.lt_or_lt hxy with h | h
        · left; simp [lexLe, hxy, h]
        · right; simp [lexLe, Ne.symm hxy, h]

theorem lexLe_trans : ∀ {a b c : List Char},
    lexLe a b = true → lexLe b c = true → lexLe a c = true := by
  intro a
  induction a with
  | nil => intro b c _ _; rfl
  | cons x xs ih =>
    intro b c hab hbc
    cases b with
    | nil => simp [lexLe] at hab
    | cons y ys =>
      cases c with
      | nil => simp [lexLe] at hbc
      | cons z zs =>
        by_cases hxy : x = y
        · subst hxy
          by_cases hyz : x = z
          · subst hyz
            simp only [lexLe, if_pos rfl] at hab hbc ⊢
            exact ih hab hbc
          · simp only [lexLe, if_pos rfl, if_neg hyz] at hab hbc ⊢
            exact hbc
        · by_cases hyz : y = z
          · subst hyz
            simp only [lexLe, if_neg hxy] at hab ⊢
            exact hab
          · simp only [lexLe, if_neg hxy, if_neg hyz] at hab hbc
            have hx : x < y := of_decide_eq_true hab
            have hy : y < z := of_decide_eq_true hbc
            have hxz : x < z := lt_trans hx hy
            simp [lexLe, ne_of_lt hxz, hxz]

instance : IsTotal Post PostDateGe :=
  ⟨fun a b => lexLe_total b.publishedAt.data a.publishedAt.data⟩

instance : IsTrans Post PostDateGe :=
  ⟨fun _ _ _ hab hbc => lexLe_trans hbc hab⟩

instance : IsTotal CatPost CatPostDateGe :=
  ⟨fun a b => lexLe_total b.publishedAt.data a.publishedAt.data⟩

instance : IsTrans CatPost CatPostDateGe :=
  ⟨fun _ _ _ hab hbc => lexLe_trans hbc hab⟩

/-- Everything on a returned page comes from the paginated list. -/
theorem paginate_items_subset {α : Type} (items : List α)
    (params : Option PaginationParams) :
    (paginate items params).items ⊆ items := by
  intro a ha
  simp only [paginate] at ha
  exact List.drop_subset _ _ (List.take_subset _ _ ha)

/-- The ceiling division models `Math.ceil`: `perPage` pages of size
`perPage` cover `total` items. -/
theorem le_jsCeilDiv_mul (total perPage : Nat) (h : 1 ≤ perPage) :
    total ≤ jsCeilDiv total perPage * perPage := by
  unfold jsCeilDiv
  rw [Nat.mul_comm]
  have hdm := Nat.div_add_mod (total + perPage - 1) perPage
  have hm : (total + perPage - 1) % perPage < perPage := Nat.mod_lt _ h
  omega

theorem jsCeilDiv_zero (b : Nat) : jsCeilDiv 0 b = 0 := by
  unfold jsCeilDiv
  match b with
  | 0 => rfl
  | k + 1 => exact Nat.div_eq_of_lt (by omega)

/-- C2: for every item list and pagination request with 1-based `page` and
`perPage ≥ 1`, `paginate` returns the slice
`[offset, offset + perPage)` with `offset = (page - 1) * perPage`, the full
filtered-set length as `total`, and
`totalPages = max 1 (ceil (total / perPage))`; a page beyond `totalPages`
yields an empty `items` slice with `total`, `page` and `perPage` still
populated, and an empty item set yields `totalPages = 1`, `total = 0`,
`items = []`. -/
theorem C2_pagination_algorithm {α : Type} (items : List α)
    (page perPage : Nat) (hpage : 1 ≤ page) (hper : 1 ≤ perPage) :
    (paginate items (some ⟨page, perPage⟩)).items =
      (items.drop ((page - 1) * perPage)).take perPage ∧
    (paginate items (some ⟨page, perPage⟩)).total = items.length ∧
    (paginate items (some ⟨page, perPage⟩)).page = page ∧
    (paginate items (some ⟨page, perPage⟩)).perPage = perPage ∧
    (paginate items (some ⟨page, perPage⟩)).totalPages =
      max 1 (jsCeilDiv items.length perPage) ∧
    ((paginate items (some ⟨page, perPage⟩)).totalPages < page →
      (paginate items (some ⟨page, perPage⟩)).items = []) ∧
    (items = [] →
      (paginate items (some ⟨page, perPage⟩)).totalPages = 1 ∧
      (paginate items (some ⟨page, perPage⟩)).total = 0 ∧
      (paginate items (some ⟨page, perPage⟩)).items = []) := by
  refine ⟨rfl, rfl, rfl, rfl, rfl, ?_, ?_⟩
  · intro hbeyond
    simp only [paginate] at hbeyond ⊢
    have h1 : jsCeilDiv items.length perPage < page :=
      lt_of_le_of_lt (le_max_right 1 _) hbeyond
    have h3 : jsCeilDiv items.length perPage ≤ page - 1 := by omega
    have h2 : items.length ≤ (page - 1) * perPage :=
      le_trans (le_jsCeilDiv_mul items.length perPage hper)
        (Nat.mul_le_mul_right _ h3)
    rw [List.drop_eq_nil_of_le h2, List.take_nil]
  · intro he
    subst he
    refine ⟨?_, rfl, ?_⟩
    · simp [paginate, List.length_nil, jsCeilDiv_zero]
    · simp [paginate]

theorem C2_pagination_algorithm_witness :
    1 ≤ 5 ∧ 1 ≤ 2 ∧
    ((paginate [10, 20, 30] (some ⟨5, 2⟩)).totalPages < 5 →
      (paginate [10, 20, 30] (some ⟨5, 2⟩)).items = ([] : List Nat)) :=
  ⟨by decide, by decide,
    (C2_pagination_algorithm [10, 20, 30] 5 2 (by decide) (by decide)).2.2.2.2.2.1⟩

/-- C10: when the posts directory does not exist, every query succeeds on
the empty document set instead of throwing — `findAll` is empty,
`findBySlug` is null, and `findPublished` returns
`items = []`, `total = 0`, `totalPages = 1`. -/
theorem C10_missing_directory_degrades (render : String → String)
    (slug : String) (params : Option PaginationParams) :
    findAll render none = [] ∧
    findBySlug render none slug = none ∧
    (findPublished render none params).items = [] ∧
    (findPublished render none params).total = 0 ∧
    (findPublished render none params).totalPages = 1 := by
  refine ⟨rfl, rfl, ?_, rfl, ?_⟩
  · simp [findPublished, paginate, getAllPosts, sortByDateDesc]
  · simp [findPublished, paginate, getAllPosts, sortByDateDesc,
      jsCeilDiv_zero]

/-- C3: `findByCategory` returns exactly `findPublished` applied to the
documents whose `category` equals the requested one, and a post with no
category never appears in any `findByCategory` result (every returned
summary carries the requested category). -/
theorem C3_findByCategory_refines_findPublished (category : String)
    (posts : List CatPost) (params : Option PaginationParams) :
    findByCategory category posts params =
      findPublishedCat
        (posts.filter (fun post => post.category == some category)) params ∧
    ∀ s ∈ (findByCategory category posts params).items,
      s.category = some category := by
  constructor
  · unfold findByCategory findPublishedCat
    rw [List.filter_filter]
  · intro s hs
    have hsub := paginate_items_subset _ params hs
    rcases List.mem_map.mp hsub with ⟨p, hp, rfl⟩
    have hp2 : p ∈ posts.filter
        (fun post => !post.draft && post.category == some category) :=
      (List.perm_insertionSort CatPostDateGe _).mem_iff.mp hp
    have hcat := (List.mem_filter.mp hp2).2
    have : p.category = some category := by
      simp only [Bool.and_eq_true, beq_iff_eq] at hcat
      exact hcat.2
    simpa [toCatPostSummary] using this

theorem C3_findByCategory_refines_findPublished_witness :
    toCatPostSummary
        ⟨"a-post", "T", "D", "c", "2024-01-01", none, [],
          some "engineering", false, none, 1⟩ ∈
      (findByCategory "engineering"
        [⟨"a-post", "T", "D", "c", "2024-01-01", none, [],
          some "engineering", false, none, 1⟩] none).items ∧
    (toCatPostSummary
        ⟨"a-post", "T", "D", "c", "2024-01-01", none, [],
          some "engineering", false, none, 1⟩).category =
      some "engineering" :=
  ⟨by decide,
    (C3_findByCategory_refines_findPublished "engineering"
      [⟨"a-post", "T", "D", "c", "2024-01-01", none, [],
        some "engineering", false, none, 1⟩] none).2 _ (by decide)⟩

/-- The split-filter-count pipeline agrees with the run counter, in every
scanner state: in separator state it counts the remaining runs afresh; in
token state with a non-empty partial token it counts one for that token
plus the remaining runs. -/
theorem splitWs_runCount (l : List Char) :
    (((splitWsAux l true []).filter (fun w => !w.isEmpty)).length =
      runCountAux l false) ∧
    (∀ acc, acc ≠ [] →
      ((splitWsAux l false acc).filter (fun w => !w.isEmpty)).length =
        1 + runCountAux l true) ∧
    (((splitWsAux l false []).filter (fun w => !w.isEmpty)).length =
      runCountAux l false) := by
  induction l with
  | nil =>
    refine ⟨by simp [splitWsAux, runCountAux], ?_, by simp [splitWsAux, runCountAux]⟩
    intro acc hacc
    have hrev : acc.reverse.isEmpty = false := by
      simp [List.isEmpty_iff, hacc]
    simp [splitWsAux, runCountAux, hrev]
  | cons c rest ih =>
    obtain ⟨ihA, ihB, ihC⟩ := ih
    by_cases hc : isWs c = true
    · refine ⟨?_, ?_, ?_⟩
      · simp only [splitWsAux, runCountAux, hc, if_true]
        exact ihA
      · intro acc hacc
        have hrev : acc.reverse.isEmpty = false := by
          simp [List.isEmpty_iff, hacc]
        simp only [splitWsAux, runCountAux, hc, if_true, List.filter_cons,
          hrev, Bool.not_false, List.length_cons, ihA]
        omega
      · simp only [splitWsAux, runCountAux, hc, if_true, List.filter_cons,
          List.isEmpty_nil, Bool.not_true, List.length_cons, ihA]
        simp [ihA]
    · refine ⟨?_, ?_, ?_⟩
      · simp only [splitWsAux, runCountAux, hc, if_false, Bool.false_eq_true]
        simpa using ihB [c] (by simp)
      · intro acc _
        simp only [splitWsAux, runCountAux, hc, if_false, Bool.false_eq_true]
        simpa using ihB (c :: acc) (by simp)
      · simp only [splitWsAux, runCountAux, hc, if_false, Bool.false_eq_true]
        simpa using ihB [c] (by simp)

/-- A string of whitespace contains no words. -/
theorem runCountAux_all_ws : ∀ (w : List Char) (b : Bool),
    (∀ c ∈ w, isWs c = true) → runCountAux w b = 0 := by
  intro w
  induction w with
  | nil => intro b _; rfl
  | cons c rest ih =>
    intro b hall
    have hc : isWs c = true := hall c (List.mem_cons_self c rest)
    simp [runCountAux, hc]
    exact ih false (fun d hd => hall d (List.mem_cons_of_mem c hd))

/-- Dropping leading whitespace does not change the word count. -/
theorem runCountAux_dropWhile_ws (l : List Char) :
    runCountAux (l.dropWhile isWs) false = runCountAux l false := by
  induction l with
  | nil => rfl
  | cons c rest ih =>
    by_cases hc : isWs c = true
    · simp [List.dropWhile_cons, hc, runCountAux, ih]
    · simp [List.dropWhile_cons, hc, runCountAux]

/-- Appending trailing whitespace does not change the word count. -/
theorem runCountAux_append_ws : ∀ (m w : List Char) (b : Bool),
    (∀ c ∈ w, isWs c = true) → runCountAux (m ++ w) b = runCountAux m b := by
  intro m
  induction m with
  | nil =>
    intro w b hall
    simp [runCountAux, runCountAux_all_ws w b hall]
  | cons c rest ih =>
    intro w b hall
    by_cases hc : isWs c = true
    · simp [runCountAux, hc, ih w false hall]
    · simp [runCountAux, hc, ih w true hall]

/-- Trimming does not change the word count. -/
theorem runCount_jsTrim (l : List Char) : runCount (jsTrim l) = runCount l := by
  unfold runCount jsTrim
  set d := l.dropWhile isWs with hd
  have hsplit : (d.reverse.dropWhile isWs).reverse ++
      (d.reverse.takeWhile isWs).reverse = d := by
    rw [← List.reverse_append, List.takeWhile_append_dropWhile, List.reverse_reverse]
  have hws : ∀ c ∈ (d.reverse.takeWhile isWs).reverse, isWs c = true := by
    intro c hcmem
    exact List.mem_takeWhile_imp (List.mem_reverse.mp hcmem)
  calc runCountAux (d.reverse.dropWhile isWs).reverse false
      = runCountAux ((d.reverse.dropWhile isWs).reverse ++
          (d.reverse.takeWhile isWs).reverse) false :=
        (runCountAux_append_ws _ _ false hws).symm
    _ = runCountAux d false := by rw [hsplit]
    _ = runCountAux l false := runCountAux_dropWhile_ws l

/-- The estimator in terms of the spec's word count. -/
theorem calculateReadingTime_eq_runCount (content : String) :
    calculateReadingTime content =
      max 1 (jsCeilDiv (runCount content.data) AVERAGE_WORDS_PER_MINUTE) := by
  unfold calculateReadingTime
  rw [(splitWs_runCount (jsTrim content.data)).2.2]
  rw [show runCountAux (jsTrim content.data) false = runCount (jsTrim content.data) from rfl]
  rw [runCount_jsTrim]

theorem runCount_sampleWords : ∀ n, runCount (sampleWordsData n) = n
  | 0 => rfl
  | 1 => rfl
  | (n + 2) => by
    have ih := runCount_sampleWords (n + 1)
    simp only [sampleWordsData, runCount, runCountAux, isWs] at ih ⊢
    simp at ih ⊢
    omega

/-- C9: for every input string the estimator splits on whitespace runs,
drops empty tokens, counts the remaining tokens as words and returns
`max 1 (ceil (wordCount / 238))`; on the empty string it returns 1, on 238
words 1, on 239 words 2, on 2380 words 10 and on 2381 words 11. -/
theorem C9_reading_time_estimate :
    (∀ content : String, calculateReadingTime content =
      max 1 (jsCeilDiv (runCount content.data) 238)) ∧
    calculateReadingTime "" = 1 ∧
    calculateReadingTime (sampleWords 238) = 1 ∧
    calculateReadingTime (sampleWords 239) = 2 ∧
    calculateReadingTime (sampleWords 2380) = 10 ∧
    calculateReadingTime (sampleWords 2381) = 11 := by
  have hmain := calculateReadingTime_eq_runCount
  have hsample : ∀ n, calculateReadingTime (sampleWords n) =
      max 1 (jsCeilDiv n 238) := by
    intro n
    rw [hmain (sampleWords n)]
    have hdata : (sampleWords n).data = sampleWordsData n := rfl
    rw [hdata, runCount_sampleWords n]
    rfl
  refine ⟨fun content => hmain content, by decide, ?_, ?_, ?_, ?_⟩
  · rw [hsample 238]; decide
  · rw [hsample 239]; decide
  · rw [hsample 2380]; decide
  · rw [hsample 2381]; decide

/- ===================== Slug pipeline lemmas ===================== -/

theorem isSlugChar_slugReplace (c : Char) : isSlugChar (slugReplace c) = true := by
  unfold slugReplace
  by_cases h : isSlugChar c = true
  · rw [if_pos h]; exact h
  · rw [if_neg h]; decide

theorem all_isSlugChar_map (l : List Char) :
    ∀ c ∈ l.map slugReplace, isSlugChar c = true := by
  intro c hc
  rcases List.mem_map.mp hc with ⟨a, _, rfl⟩
  exact isSlugChar_slugReplace a

theorem mem_collapseDashes : ∀ (l : List Char) (c : Char),
    c ∈ collapseDashes l → c ∈ l
  | [], c => by simp [collapseDashes]
  | [a], c => by simp [collapseDashes]
  | a :: b :: rest, c => by
    intro hc
    simp only [collapseDashes] at hc
    by_cases hab : (a = '-' && b = '-') = true
    · rw [if_pos hab] at hc
      exact List.mem_cons_of_mem a (mem_collapseDashes (b :: rest) c hc)
    · rw [if_neg hab] at hc
      rcases List.mem_cons.mp hc with rfl | hc
      · exact List.mem_cons_self _ _
      · exact List.mem_cons_of_mem a (mem_collapseDashes (b :: rest) c hc)

theorem head?_collapseDashes : ∀ l : List Char,
    (collapseDashes l).head? = l.head?
  | [] => rfl
  | [a] => rfl
  | a :: b :: rest => by
    simp only [collapseDashes]
    by_cases hab : (a = '-' && b = '-') = true
    · rw [if_pos hab, head?_collapseDashes (b :: rest)]
      have ha : a = '-' := by
        have := Bool.and_eq_true .. |>.mp hab
        exact of_decide_eq_true this.1
      have hb : b = '-' := by
        have := Bool.and_eq_true .. |>.mp hab
        exact of_decide_eq_true this.2
      simp [ha, hb]
    · rw [if_neg hab]; rfl

theorem chain'_collapseDashes : ∀ l : List Char,
    List.Chain' (fun x y => ¬(x = '-' ∧ y = '-')) (collapseDashes l)
  | [] => by simp [collapseDashes]
  | [a] => by simp [collapseDashes]
  | a :: b :: rest => by
    simp only [collapseDashes]
    by_cases hab : (a = '-' && b = '-') = true
    · rw [if_pos hab]; exact chain'_collapseDashes (b :: rest)
    · rw [if_neg hab]
      refine List.chain'_cons'.mpr ⟨?_, chain'_collapseDashes (b :: rest)⟩
      intro y hy
      rw [head?_collapseDashes (b :: rest)] at hy
      simp only [List.head?_cons, Option.mem_def, Option.some.injEq] at hy
      subst hy
      rintro ⟨ha, hb⟩
      exact hab (by simp [ha, hb])

theorem collapseDashes_eq_self : ∀ l : List Char,
    List.Chain' (fun x y => ¬(x = '-' ∧ y = '-')) l → collapseDashes l = l
  | [] => fun _ => rfl
  | [a] => fun _ => rfl
  | a :: b :: rest => fun h => by
    have hR := (List.chain'_cons'.mp h).1 b rfl
    have htail := (List.chain'_cons'.mp h).2
    simp only [collapseDashes]
    have hab : ¬((a = '-' && b = '-') = true) := by
      intro hcontra
      have hsplit := Bool.and_eq_true .. |>.mp hcontra
      exact hR ⟨of_decide_eq_true hsplit.1, of_decide_eq_true hsplit.2⟩
    rw [if_neg hab, collapseDashes_eq_self (b :: rest) htail]

theorem head?_dropWhile_false (p : Char → Bool) : ∀ (l : List Char) (c : Char),
    (l.dropWhile p).head? = some c → p c = false
  | [], c => by simp
  | a :: rest, c => by
    intro h
    rw [List.dropWhile_cons] at h
    by_cases hpa : p a = true
    · rw [if_pos hpa] at h
      exact head?_dropWhile_false p rest c h
    · rw [if_neg hpa] at h
      simp only [List.head?_cons, Option.some.injEq] at h
      subst h
      exact Bool.not_eq_true _ |>.mp hpa

theorem dropWhile_eq_self_of_head (p : Char → Bool) (l : List Char)
    (h : ∀ c, l.head? = some c → p c = false) : l.dropWhile p = l := by
  cases l with
  | nil => rfl
  | cons a rest =>
    rw [List.dropWhile_cons, if_neg]
    simp [h a rfl]

theorem head?_of_leadingPart {l₁ l₂ : List Char} (h : l₁ <+: l₂) (hne : l₁ ≠ []) :
    l₁.head? = l₂.head? := by
  rcases h with ⟨t, rfl⟩
  cases l₁ with
  | nil => exact absurd rfl hne
  | cons a r => rfl

theorem isLowerAlnum_of_slugChar_ne_dash {c : Char}
    (hs : isSlugChar c = true) (hd : c ≠ '-') : isLowerAlnum c = true := by
  unfold isSlugChar at hs
  rcases Bool.or_eq_true .. |>.mp hs with h | h
  · exact h
  · exact absurd (of_decide_eq_true h) hd

theorem ne_dash_of_isLowerAlnum {c : Char} (h : isLowerAlnum c = true) :
    c ≠ '-' := by
  intro hc
  subst hc
  exact absurd h (by decide)

theorem validSlugAux_of_props : ∀ l : List Char,
    (∀ c ∈ l, isSlugChar c = true) →
    l.getLast? ≠ some '-' →
    List.Chain' (fun x y => ¬(x = '-' ∧ y = '-')) l →
    validSlugAux l = true
  | [] => fun _ _ _ => rfl
  | c :: rest => fun hall hlast hchain => by
    simp only [validSlugAux]
    by_cases hc : isLowerAlnum c = true
    · rw [if_pos hc]
      cases rest with
      | nil => rfl
      | cons d ds =>
        exact validSlugAux_of_props (d :: ds)
          (fun x hx => hall x (List.mem_cons_of_mem c hx))
          (by rwa [List.getLast?_cons_cons] at hlast)
          ((List.chain'_cons'.mp hchain).2)
    · have hcs := hall c (List.mem_cons_self c rest)
      have hdash : c = '-' := by
        unfold isSlugChar at hcs
        rcases Bool.or_eq_true .. |>.mp hcs with h | h
        · exact absurd h hc
        · exact of_decide_eq_true h
      rw [if_neg hc, if_pos (by simp [hdash])]
      cases rest with
      | nil =>
        exfalso
        exact hlast (by simp [hdash])
      | cons d ds =>
        have hRd : ¬(c = '-' ∧ d = '-') :=
          (List.chain'_cons'.mp hchain).1 d rfl
        have hd : d ≠ '-' := fun h => hRd ⟨hdash, h⟩
        have hdalnum : isLowerAlnum d = true :=
          isLowerAlnum_of_slugChar_ne_dash
            (hall d (List.mem_cons_of_mem c (List.mem_cons_self d ds))) hd
        rw [Bool.and_eq_true]
        exact ⟨hdalnum,
          validSlugAux_of_props (d :: ds)
            (fun x hx => hall x (List.mem_cons_of_mem c hx))
            (by rwa [List.getLast?_cons_cons] at hlast)
            ((List.chain'_cons'.mp hchain).2)⟩

theorem isValidSlug_of_props (l : List Char) (hne : l ≠ [])
    (hall : ∀ c ∈ l, isSlugChar c = true)
    (hhead : l.head? ≠ some '-')
    (hlast : l.getLast? ≠ some '-')
    (hchain : List.Chain' (fun x y => ¬(x = '-' ∧ y = '-')) l) :
    isValidSlug (String.mk l) = true := by
  cases l with
  | nil => exact absurd rfl hne
  | cons c rest =>
    simp only [isValidSlug]
    rw [Bool.and_eq_true]
    constructor
    · exact isLowerAlnum_of_slugChar_ne_dash
        (hall c (List.mem_cons_self c rest))
        (fun h => hhead (by simp [h]))
    · cases rest with
      | nil => rfl
      | cons d ds =>
        exact validSlugAux_of_props (d :: ds)
          (fun x hx => hall x (List.mem_cons_of_mem c hx))
          (by rwa [List.getLast?_cons_cons] at hlast)
          ((List.chain'_cons'.mp hchain).2)

theorem props_of_validSlugAux : ∀ l : List Char, validSlugAux l = true →
    (∀ c ∈ l, isSlugChar c = true) ∧ l.getLast? ≠ some '-' ∧
      List.Chain' (fun x y => ¬(x = '-' ∧ y = '-')) l
  | [] => fun _ => ⟨by simp, by simp, List.chain'_nil⟩
  | c :: rest => fun h => by
    simp only [validSlugAux] at h
    by_cases hc : isLowerAlnum c = true
    · rw [if_pos hc] at h
      obtain ⟨hall, hlast, hchain⟩ := props_of_validSlugAux rest h
      refine ⟨?_, ?_, ?_⟩
      · intro x hx
        rcases List.mem_cons.mp hx with rfl | hx
        · unfold isSlugChar; rw [hc, Bool.true_or]
        · exact hall x hx
      · cases rest with
        | nil =>
          simp only [List.getLast?_singleton, ne_eq, Option.some.injEq]
          exact ne_dash_of_isLowerAlnum hc
        | cons d ds => rwa [List.getLast?_cons_cons]
      · refine List.chain'_cons'.mpr ⟨?_, hchain⟩
        intro y _
        rintro ⟨hcd, _⟩
        exact ne_dash_of_isLowerAlnum hc hcd
    · rw [if_neg hc] at h
      by_cases hdash : c = '-'
      · rw [if_pos (by simp [hdash])] at h
        cases rest with
        | nil => exact absurd h (by simp)
        | cons d ds =>
          rw [Bool.and_eq_true] at h
          obtain ⟨hd, hrest⟩ := h
          obtain ⟨hall, hlast, hchain⟩ := props_of_validSlugAux (d :: ds) hrest
          refine ⟨?_, ?_, ?_⟩
          · intro x hx
            rcases List.mem_cons.mp hx with rfl | hx
            · simp [isSlugChar, hdash]
            · exact hall x hx
          · rwa [List.getLast?_cons_cons]
          · refine List.chain'_cons'.mpr ⟨?_, hchain⟩
            intro y hy
            simp only [List.head?_cons, Option.mem_def, Option.some.injEq] at hy
            subst hy
            rintro ⟨_, hy2⟩
            exact ne_dash_of_isLowerAlnum hd hy2
      · rw [if_neg (by simp [hdash])] at h
        exact absurd h (by simp)

theorem props_of_isValidSlug (s : String) (h : isValidSlug s = true) :
    s.data ≠ [] ∧ (∀ c ∈ s.data, isSlugChar c = true) ∧
      s.data.head? ≠ some '-' ∧ s.data.getLast? ≠ some '-' ∧
      List.Chain' (fun x y => ¬(x = '-' ∧ y = '-')) s.data := by
  unfold isValidSlug at h
  cases hdata : s.data with
  | nil => rw [hdata] at h; exact absurd h (by simp)
  | cons c rest =>
    rw [hdata] at h
    rw [Bool.and_eq_true] at h
    obtain ⟨hc, hrest⟩ := h
    obtain ⟨hall, hlast, hchain⟩ := props_of_validSlugAux rest hrest
    refine ⟨by simp, ?_, ?_, ?_, ?_⟩
    · intro x hx
      rcases List.mem_cons.mp hx with rfl | hx
      · unfold isSlugChar; rw [hc, Bool.true_or]
      · exact hall x hx
    · simp only [List.head?_cons, ne_eq, Option.some.injEq]
      exact ne_dash_of_isLowerAlnum hc
    · cases rest with
      | nil =>
        simp only [List.getLast?_singleton, ne_eq, Option.some.injEq]
        exact ne_dash_of_isLowerAlnum hc
      | cons d ds => rwa [List.getLast?_cons_cons]
    · refine List.chain'_cons'.mpr ⟨?_, hchain⟩
      intro y _
      rintro ⟨hcd, _⟩
      exact ne_dash_of_isLowerAlnum hc hcd

theorem jsToLower_fixed {c : Char} (h : isSlugChar c = true) :
    jsToLower c = c := by
  unfold jsToLower
  rw [if_neg]
  intro hcond
  rw [Bool.and_eq_true] at hcond
  have h1 : 'A' ≤ c := of_decide_eq_true hcond.1
  have h2 : c ≤ 'Z' := of_decide_eq_true hcond.2
  unfold isSlugChar isLowerAlnum at h
  rcases Bool.or_eq_true .. |>.mp h with h3 | h3
  · rcases Bool.or_eq_true .. |>.mp h3 with h4 | h4
    · rw [Bool.and_eq_true] at h4
      have : ('a' : Char) ≤ 'Z' := le_trans (of_decide_eq_true h4.1) h2
      exact absurd this (by decide)
    · rw [Bool.and_eq_true] at h4
      have : ('A' : Char) ≤ '9' := le_trans h1 (of_decide_eq_true h4.2)
      exact absurd this (by decide)
  · have hc : c = '-' := of_decide_eq_true h3
    subst hc
    exact absurd h1 (by decide)

theorem slugReplace_fixed {c : Char} (h : isSlugChar c = true) :
    slugReplace c = c := by
  unfold slugReplace
  rw [if_pos h]

/-- `normaliseSlug` is the identity on already-valid slugs. -/
theorem normaliseSlug_of_valid (t : String) (h : isValidSlug t = true) :
    normaliseSlug t = some t := by
  obtain ⟨hne, hall, hhead, hlast, hchain⟩ := props_of_isValidSlug t h
  have hmap1 : t.data.map jsToLower = t.data := by
    rw [List.map_congr_left (fun a ha => jsToLower_fixed (hall a ha))]
    simp
  have hmap2 : t.data.map slugReplace = t.data := by
    rw [List.map_congr_left (fun a ha => slugReplace_fixed (hall a ha))]
    simp
  have hcollapse := collapseDashes_eq_self t.data hchain
  have hdrop1 : t.data.dropWhile (fun c => c = '-') = t.data := by
    apply dropWhile_eq_self_of_head
    intro c hc
    apply decide_eq_false
    intro hdash
    subst hdash
    exact hhead hc
  have hdrop2 : t.data.reverse.dropWhile (fun c => c = '-') = t.data.reverse := by
    apply dropWhile_eq_self_of_head
    intro c hc
    apply decide_eq_false
    intro hdash
    subst hdash
    rw [List.head?_reverse] at hc
    exact hlast hc
  have hstrip : stripEdgeDashes t.data = t.data := by
    unfold stripEdgeDashes
    rw [hdrop1, hdrop2, List.reverse_reverse]
  unfold normaliseSlug
  simp only [hmap1, hmap2, hcollapse, hstrip]
  rw [if_pos (List.length_pos.mpr hne)]

/-- The result of collapsing and edge-stripping a list of slug characters
is a valid slug whenever it is non-empty. -/
theorem isValidSlug_stripCollapse (l : List Char)
    (hall : ∀ c ∈ l, isSlugChar c = true)
    (hne : stripEdgeDashes (collapseDashes l) ≠ []) :
    isValidSlug (String.mk (stripEdgeDashes (collapseDashes l))) = true := by
  have hallm : ∀ c ∈ collapseDashes l, isSlugChar c = true := fun c hc =>
    hall c (mem_collapseDashes l c hc)
  have hchainm : List.Chain' (fun x y => ¬(x = '-' ∧ y = '-'))
      (collapseDashes l) := chain'_collapseDashes l
  have hd1suf : (collapseDashes l).dropWhile (fun c => c = '-') <:+
      collapseDashes l := List.dropWhile_suffix _
  have hnrev : (stripEdgeDashes (collapseDashes l)).reverse =
      ((collapseDashes l).dropWhile (fun c => c = '-')).reverse.dropWhile
        (fun c => c = '-') := by
    unfold stripEdgeDashes
    rw [List.reverse_reverse]
  have hnpre : stripEdgeDashes (collapseDashes l) <+:
      (collapseDashes l).dropWhile (fun c => c = '-') := by
    have hsuf : (stripEdgeDashes (collapseDashes l)).reverse <:+
        ((collapseDashes l).dropWhile (fun c => c = '-')).reverse := by
      rw [hnrev]
      exact List.dropWhile_suffix _
    rcases hsuf with ⟨u, hu⟩
    refine ⟨u.reverse, ?_⟩
    have h2 := congrArg List.reverse hu
    rwa [List.reverse_append, List.reverse_reverse, List.reverse_reverse]
      at h2
  refine isValidSlug_of_props _ hne ?_ ?_ ?_ ?_
  · intro c hc
    exact hallm c (hd1suf.subset (hnpre.subset hc))
  · intro hcontra
    rw [head?_of_leadingPart hnpre hne] at hcontra
    have := head?_dropWhile_false _ (collapseDashes l) '-' hcontra
    exact absurd this (by simp)
  · intro hcontra
    rw [List.getLast?_eq_head?_reverse, hnrev] at hcontra
    have := head?_dropWhile_false _
      ((collapseDashes l).dropWhile (fun c => c = '-')).reverse '-' hcontra
    exact absurd this (by simp)
  · have h1 : List.Chain' (flip (fun x y : Char => ¬(x = '-' ∧ y = '-')))
        ((collapseDashes l).dropWhile (fun c => c = '-')) :=
      (hchainm.suffix hd1suf).imp (fun _ _ hab hba => hab ⟨hba.2, hba.1⟩)
    have h2 := List.chain'_reverse.mpr h1
    have h3 := h2.suffix (List.dropWhile_suffix (fun c => c = '-'))
    have h4 : List.Chain' (flip (fun x y : Char => ¬(x = '-' ∧ y = '-')))
        (((collapseDashes l).dropWhile
          (fun c => c = '-')).reverse.dropWhile (fun c => c = '-')) :=
      h3.imp (fun _ _ hab hba => hab ⟨hba.2, hba.1⟩)
    have h5 := List.chain'_reverse.mpr h4
    rw [← hnrev, List.reverse_reverse] at h5
    exact h5

/-- C7: whenever `normaliseSlug` returns a non-null result, that result
passes `isValidSlug`, and `normaliseSlug` is idempotent on its own
output. -/
theorem C7_normalise_slug_roundtrip (s t : String)
    (h : normaliseSlug s = some t) :
    isValidSlug t = true ∧ normaliseSlug t = some t := by
  unfold normaliseSlug at h
  simp only at h
  split at h
  case isFalse => exact absurd h (by simp)
  case isTrue hlen =>
    have ht : t = String.mk (stripEdgeDashes
        (collapseDashes ((s.data.map jsToLower).map slugReplace))) :=
      (Option.some_inj.mp h).symm
    have hne : stripEdgeDashes
        (collapseDashes ((s.data.map jsToLower).map slugReplace)) ≠ [] := by
      intro hcontra
      rw [hcontra] at hlen
      exact absurd hlen (by simp)
    have hvalid : isValidSlug t = true := by
      rw [ht]
      exact isValidSlug_stripCollapse _ (all_isSlugChar_map _) hne
    exact ⟨hvalid, normaliseSlug_of_valid t hvalid⟩

theorem C7_normalise_slug_roundtrip_witness :
    normaliseSlug "My Post!" = some "my-post" ∧
    isValidSlug "my-post" = true ∧
    normaliseSlug "my-post" = some "my-post" :=
  ⟨by decide,
    (C7_normalise_slug_roundtrip "My Post!" "my-post" (by decide)).1,
    (C7_normalise_slug_roundtrip "My Post!" "my-post" (by decide)).2⟩

/-- C1: `findPublished` is exactly filter-out-drafts, stable descending
sort by `publishedAt`, projection to `PostSummary` (dropping only
`content`, all other fields unchanged), then pagination; consequently the
returned page is date-descending and no draft ever appears in any
`findPublished` result. -/
theorem C1_findPublished_pipeline (render : String → String)
    (state : FileSysState) (params : Option PaginationParams) :
    findPublished render state params =
      paginate
        ((sortByDateDesc ((getAllPosts render state).filter
          (fun post => !post.draft))).map toPostSummary) params ∧
    (∀ p : Post,
      (toPostSummary p).slug = p.slug ∧
      (toPostSummary p).title = p.title ∧
      (toPostSummary p).description = p.description ∧
      (toPostSummary p).publishedAt = p.publishedAt ∧
      (toPostSummary p).updatedAt = p.updatedAt ∧
      (toPostSummary p).tags = p.tags ∧
      (toPostSummary p).draft = p.draft ∧
      (toPostSummary p).externalUrl = p.externalUrl ∧
      (toPostSummary p).readingTimeMinutes = p.readingTimeMinutes) ∧
    List.Pairwise
      (fun a b : PostSummary => lexLe b.publishedAt.data a.publishedAt.data = true)
      (findPublished render state params).items ∧
    (∀ s ∈ (findPublished render state params).items,
      s.draft = false ∧
      ∃ p ∈ getAllPosts render state, p.draft = false ∧ s = toPostSummary p) := by
  refine ⟨rfl, fun p => ⟨rfl, rfl, rfl, rfl, rfl, rfl, rfl, rfl, rfl⟩, ?_, ?_⟩
  · have hsorted : List.Pairwise PostDateGe
        (sortByDateDesc ((getAllPosts render state).filter
          (fun post => !post.draft))) :=
      List.sorted_insertionSort PostDateGe _
    have hmapped : List.Pairwise
        (fun a b : PostSummary =>
          lexLe b.publishedAt.data a.publishedAt.data = true)
        ((sortByDateDesc ((getAllPosts render state).filter
          (fun post => !post.draft))).map toPostSummary) :=
      hsorted.map toPostSummary (fun _ _ h => h)
    exact hmapped.sublist
      (List.Sublist.trans (List.take_sublist _ _) (List.drop_sublist _ _))
  · intro s hs
    have hsub := paginate_items_subset _ params hs
    rcases List.mem_map.mp hsub with ⟨p, hp, rfl⟩
    have hp2 : p ∈ (getAllPosts render state).filter
        (fun post => !post.draft) :=
      (List.perm_insertionSort PostDateGe _).mem_iff.mp hp
    obtain ⟨hpmem, hpdraft⟩ := List.mem_filter.mp hp2
    have hdraft : p.draft = false := by
      simpa using hpdraft
    exact ⟨hdraft, p, hpmem, hdraft, rfl⟩

theorem C1_findPublished_pipeline_witness :
    (⟨"a", "T", "d", "2024-01-01", none, [], false, none, 1⟩ : PostSummary) ∈
      (findPublished processMarkdown
        (some
          [("a.md",
            "---\ntitle: T\ndescription: d\npublishedAt: 2024-01-01\n---\nBody"),
           ("b.md",
            "---\ntitle: D\ndescription: d\npublishedAt: 2024-01-02\ndraft: true\n---\nX")])
        none).items ∧
    (⟨"a", "T", "d", "2024-01-01", none, [], false, none, 1⟩ : PostSummary).draft
      = false :=
  ⟨by decide,
    ((C1_findPublished_pipeline processMarkdown
      (some
        [("a.md",
          "---\ntitle: T\ndescription: d\npublishedAt: 2024-01-01\n---\nBody"),
         ("b.md",
          "---\ntitle: D\ndescription: d\npublishedAt: 2024-01-02\ndraft: true\n---\nX")])
      none).2.2.2 _ (by decide)).1⟩

/-- C6: `findBySlug` matches the slug exactly against the full unfiltered
discovered set (drafts included) and returns null exactly when no
discovered post carries the slug — in particular when the only candidate
document was dropped during discovery because parsing or validation failed;
such a per-document failure removes only that document and never aborts the
batch. -/
theorem C6_findBySlug_contract (render : String → String)
    (state : FileSysState) (slug : String) :
    (findBySlug render state slug = none ↔
      ∀ p ∈ getAllPosts render state, p.slug ≠ slug) ∧
    (∀ p, findBySlug render state slug = some p →
      p ∈ getAllPosts render state ∧ p.slug = slug) ∧
    (∀ (name content : String) (rest : List (String × String)),
      parsePostFile render name content = none →
      getAllPosts render (some ((name, content) :: rest)) =
        getAllPosts render (some rest)) := by
  refine ⟨?_, ?_, ?_⟩
  · unfold findBySlug
    rw [List.find?_eq_none]
    constructor
    · intro h p hp hslug
      have := h p hp
      simp [hslug] at this
    · intro h p hp
      simp [h p hp]
  · intro p hfind
    unfold findBySlug at hfind
    refine ⟨List.mem_of_find?_eq_some hfind, ?_⟩
    have := List.find?_some hfind
    simpa using this
  · intro name content rest hfail
    unfold getAllPosts
    by_cases hmd : endsWithMd name = true
    · simp [List.filter_cons, hmd, List.filterMap_cons, hfail]
    · simp [List.filter_cons, hmd]

theorem C6_findBySlug_contract_witness :
    parsePostFile processMarkdown "bad.md" "no metadata block here" = none ∧
    getAllPosts processMarkdown
        (some [("bad.md", "no metadata block here"),
               ("good.md",
                 "---\ntitle: T\ndescription: d\npublishedAt: 2024-01-01\n---\nBody")]) =
      getAllPosts processMarkdown
        (some [("good.md",
          "---\ntitle: T\ndescription: d\npublishedAt: 2024-01-01\n---\nBody")]) :=
  ⟨by decide,
    (C6_findBySlug_contract processMarkdown
      (some [("bad.md", "no metadata block here"),
             ("good.md",
               "---\ntitle: T\ndescription: d\npublishedAt: 2024-01-01\n---\nBody")])
      "bad").2.2 "bad.md" "no metadata block here"
      [("good.md",
        "---\ntitle: T\ndescription: d\npublishedAt: 2024-01-01\n---\nBody")]
      (by decide)⟩

/-- C8: the schema accepts a metadata object containing exactly a non-empty
`title`, a non-empty `description` and a `publishedAt` matching the
`YYYY-MM-DD` pattern, and applies the defaults `draft = false`,
`tags = []` (with `updatedAt` and `externalUrl` absent). -/
theorem C8_minimal_frontmatter_accepted (t d p : String)
    (ht : 1 ≤ t.length) (hd : 1 ≤ d.length) (hp : isIsoDate p = true) :
    postFrontmatterSafeParse
        [("title", JVal.jstr t), ("description", JVal.jstr d),
         ("publishedAt", JVal.jstr p)] =
      some { title := t, description := d, publishedAt := p,
             updatedAt := none, tags := [], draft := false,
             externalUrl := none } := by
  have h1 : lookupKey
      [("title", JVal.jstr t), ("description", JVal.jstr d),
       ("publishedAt", JVal.jstr p)] "title" = some (JVal.jstr t) := rfl
  have h2 : lookupKey
      [("title", JVal.jstr t), ("description", JVal.jstr d),
       ("publishedAt", JVal.jstr p)] "description" = some (JVal.jstr d) := rfl
  have h3 : lookupKey
      [("title", JVal.jstr t), ("description", JVal.jstr d),
       ("publishedAt", JVal.jstr p)] "publishedAt" = some (JVal.jstr p) := rfl
  have h4 : lookupKey
      [("title", JVal.jstr t), ("description", JVal.jstr d),
       ("publishedAt", JVal.jstr p)] "updatedAt" = none := rfl
  have h5 : lookupKey
      [("title", JVal.jstr t), ("description", JVal.jstr d),
       ("publishedAt", JVal.jstr p)] "tags" = none := rfl
  have h6 : lookupKey
      [("title", JVal.jstr t), ("description", JVal.jstr d),
       ("publishedAt", JVal.jstr p)] "draft" = none := rfl
  have h7 : lookupKey
      [("title", JVal.jstr t), ("description", JVal.jstr d),
       ("publishedAt", JVal.jstr p)] "externalUrl" = none := rfl
  unfold postFrontmatterSafeParse
  rw [h1, h2, h3, h4, h5, h6, h7]
  simp [parseNonEmptyString, parseIsoDateField, parseNullishIsoDate,
    parseTagsField, parseDraftField, parseNullishUrl, ht, hd, hp]

theorem C8_minimal_frontmatter_accepted_witness :
    1 ≤ ("My Post" : String).length ∧ 1 ≤ ("A post." : String).length ∧
    isIsoDate "2024-01-15" = true ∧
    postFrontmatterSafeParse
        [("title", JVal.jstr "My Post"), ("description", JVal.jstr "A post."),
         ("publishedAt", JVal.jstr "2024-01-15")] =
      some { title := "My Post", description := "A post.",
             publishedAt := "2024-01-15", updatedAt := none, tags := [],
             draft := false, externalUrl := none } :=
  ⟨by decide, by decide, by decide,
    C8_minimal_frontmatter_accepted "My Post" "A post." "2024-01-15"
      (by decide) (by decide) (by decide)⟩

theorem isUrlModel_beq_empty_false {u : String} (h : isUrlModel u = true) :
    (u == "") = false := by
  by_cases hu : u = ""
  · subst hu
    exact absurd h (by decide)
  · exact beq_eq_false_iff_ne .. |>.mpr hu

theorem parseNullishUrl_some_some (x : Option JVal) (u : String)
    (h : parseNullishUrl x = some (some u)) : isUrlModel u = true := by
  match x with
  | none => simp [parseNullishUrl] at h
  | some JVal.jnull => simp [parseNullishUrl] at h
  | some (JVal.jbool _) => simp [parseNullishUrl] at h
  | some (JVal.jarr _) => simp [parseNullishUrl] at h
  | some (JVal.jstr s) =>
    simp only [parseNullishUrl] at h
    split at h
    · have hs : s = u := by simpa using h
      subst hs
      assumption
    · exact absurd h (by simp)

/-- Inversion for a successful document parse: the metadata block was
extracted, the front matter validated, and the post is assembled from the
validated data exactly as `parsePostFile` builds it. -/
theorem parsePostFile_eq_some_iff (render : String → String)
    (name content : String) (p : Post) :
    parsePostFile render name content = some p ↔
    ∃ fm body data,
      extractFrontmatter content = some (fm, body) ∧
      postFrontmatterSafeParse fm = some data ∧
      p = { slug := createPostSlug (stripMdExt name),
            title := data.title,
            description := data.description,
            content := if jsTruthyStr data.externalUrl then ""
              else render body,
            publishedAt := data.publishedAt,
            updatedAt := data.updatedAt,
            tags := data.tags,
            draft := data.draft,
            externalUrl := data.externalUrl,
            readingTimeMinutes := calculateReadingTime
              (if jsTruthyStr data.externalUrl then "" else body) } := by
  unfold parsePostFile
  cases hex : extractFrontmatter content with
  | none => simp
  | some fb =>
    obtain ⟨fm, body⟩ := fb
    cases hsp : postFrontmatterSafeParse fm with
    | none => simp [hsp]
    | some data =>
      simp only [hsp, Option.some.injEq, Prod.mk.injEq]
      constructor
      · intro h
        exact ⟨fm, body, data, ⟨rfl, rfl⟩, hsp, h.symm⟩
      · rintro ⟨fm', body', data', ⟨rfl, rfl⟩, hsp', hp⟩
        rw [hsp] at hsp'
        have hd := Option.some_inj.mp hsp'
        subst hd
        exact hp.symm

/-- A validated `externalUrl` passed the URL check (and so is non-empty). -/
theorem safeParse_externalUrl_valid (obj : List (String × JVal))
    (data : PostFrontmatter) (h : postFrontmatterSafeParse obj = some data) :
    ∀ u, data.externalUrl = some u → isUrlModel u = true := by
  intro u hu
  unfold postFrontmatterSafeParse at h
  simp only [bind, Option.bind_eq_some, Option.pure_def,
    Option.some.injEq] at h
  obtain ⟨title, h1, description, h2, publishedAt, h3, updatedAt, h4,
    tags, h5, draft, h6, externalUrl, h7, heq⟩ := h
  have hfield : data.externalUrl = externalUrl := by rw [← heq]
  rw [hfield] at hu
  subst hu
  exact parseNullishUrl_some_some _ u h7

/-- C4 (amended): a discovered post with `externalUrl` set has
`content = ""` and its construction never invokes the markdown renderer
(the result is identical under any renderer). The claim's converse
direction fails: a non-external post whose body renders to nothing also
has empty content — see the counterexample. -/
theorem C4_external_posts_never_rendered (render₁ render₂ : String → String)
    (name content : String) (p : Post)
    (hp : parsePostFile render₁ name content = some p)
    (hext : p.externalUrl ≠ none) :
    p.content = "" ∧ parsePostFile render₂ name content = some p := by
  obtain ⟨fm, body, data, hex, hsp, hpe⟩ :=
    (parsePostFile_eq_some_iff render₁ name content p).mp hp
  have hdata : p.externalUrl = data.externalUrl := by rw [hpe]
  rw [hdata] at hext
  obtain ⟨u, hu⟩ := Option.ne_none_iff_exists'.mp hext
  have hurl := safeParse_externalUrl_valid fm data hsp u hu
  have htruthy : jsTruthyStr data.externalUrl = true := by
    rw [hu]
    show (!(u == "")) = true
    rw [isUrlModel_beq_empty_false hurl]
    rfl
  constructor
  · rw [hpe]
    show (if jsTruthyStr data.externalUrl then "" else render₁ body) = ""
    rw [htruthy]
    rfl
  · refine (parsePostFile_eq_some_iff render₂ name content p).mpr
      ⟨fm, body, data, hex, hsp, ?_⟩
    rw [hpe]
    simp only [htruthy, if_true]

theorem C4_external_posts_never_rendered_witness :
    parsePostFile processMarkdown "ext.md"
        "---\ntitle: E\ndescription: d\npublishedAt: 2024-01-01\nexternalUrl: https://example.com/x\n---\n" =
      some { slug := "ext", title := "E", description := "d", content := "",
             publishedAt := "2024-01-01", updatedAt := none, tags := [],
             draft := false, externalUrl := some "https://example.com/x",
             readingTimeMinutes := 1 } ∧
    ({ slug := "ext", title := "E", description := "d", content := "",
       publishedAt := "2024-01-01", updatedAt := none, tags := [],
       draft := false, externalUrl := some "https://example.com/x",
       readingTimeMinutes := 1 } : Post).externalUrl ≠ none ∧
    (({ slug := "ext", title := "E", description := "d", content := "",
        publishedAt := "2024-01-01", updatedAt := none, tags := [],
        draft := false, externalUrl := some "https://example.com/x",
        readingTimeMinutes := 1 } : Post).content = "" ∧
      parsePostFile (fun _ => "UNUSED") "ext.md"
          "---\ntitle: E\ndescription: d\npublishedAt: 2024-01-01\nexternalUrl: https://example.com/x\n---\n" =
        some { slug := "ext", title := "E", description := "d",
               content := "", publishedAt := "2024-01-01",
               updatedAt := none, tags := [], draft := false,
               externalUrl := some "https://example.com/x",
               readingTimeMinutes := 1 }) :=
  ⟨by decide, by decide,
    C4_external_posts_never_rendered processMarkdown (fun _ => "UNUSED")
      "ext.md"
      "---\ntitle: E\ndescription: d\npublishedAt: 2024-01-01\nexternalUrl: https://example.com/x\n---\n"
      _ (by decide) (by decide)⟩

/-- C4 counterexample: a non-external document with an empty body yields a
discovered post with `content = ""` and `externalUrl` null, so
"content is empty if and only if externalUrl is set" fails in the
only-if direction. -/
theorem C4_content_empty_iff_external_counterexample :
    getAllPosts processMarkdown
        (some [("empty-body.md",
          "---\ntitle: t\ndescription: d\npublishedAt: 2024-01-15\n---\n")]) =
      [{ slug := "empty-body", title := "t", description := "d",
         content := "", publishedAt := "2024-01-15", updatedAt := none,
         tags := [], draft := false, externalUrl := none,
         readingTimeMinutes := 1 }] ∧
    ({ slug := "empty-body", title := "t", description := "d",
       content := "", publishedAt := "2024-01-15", updatedAt := none,
       tags := [], draft := false, externalUrl := none,
       readingTimeMinutes := 1 } : Post).content = "" ∧
    ({ slug := "empty-body", title := "t", description := "d",
       content := "", publishedAt := "2024-01-15", updatedAt := none,
       tags := [], draft := false, externalUrl := none,
       readingTimeMinutes := 1 } : Post).externalUrl = none := by
  refine ⟨by decide, by decide, by decide⟩

/-- C5 (amended): the slug of every discovered post is the file name minus
its `.md` extension taken verbatim — `createPostSlug` is an identity brand
cast and no `SlugCodec` normalisation is applied. -/
theorem C5_slug_is_raw_basename (render : String → String)
    (name content : String) (p : Post)
    (hp : parsePostFile render name content = some p) :
    p.slug = stripMdExt name := by
  obtain ⟨fm, body, data, hex, hsp, hpe⟩ :=
    (parsePostFile_eq_some_iff render name content p).mp hp
  rw [hpe]
  rfl

theorem C5_slug_is_raw_basename_witness :
    parsePostFile processMarkdown "My-Post.md"
        "---\ntitle: T\ndescription: d\npublishedAt: 2024-01-01\n---\nBody" =
      some { slug := "My-Post", title := "T", description := "d",
             content := "<p>Body</p>", publishedAt := "2024-01-01",
             updatedAt := none, tags := [], draft := false,
             externalUrl := none, readingTimeMinutes := 1 } ∧
    ({ slug := "My-Post", title := "T", description := "d",
       content := "<p>Body</p>", publishedAt := "2024-01-01",
       updatedAt := none, tags := [], draft := false, externalUrl := none,
       readingTimeMinutes := 1 } : Post).slug = stripMdExt "My-Post.md" :=
  ⟨by decide,
    C5_slug_is_raw_basename processMarkdown "My-Post.md"
      "---\ntitle: T\ndescription: d\npublishedAt: 2024-01-01\n---\nBody"
      _ (by decide)⟩

/-- C5 counterexample: the discovered slug of `My-Post.md` is `"My-Post"`
verbatim, while `SlugCodec` normalisation of the filename minus extension
yields `"my-post"`, a different string — so the slug is not the
normalisation of the document identifier. -/
theorem C5_slug_not_normalised_counterexample :
    (getAllPosts processMarkdown
        (some [("My-Post.md",
          "---\ntitle: T\ndescription: d\npublishedAt: 2024-01-01\n---\nBody")])).map
        (fun p => p.slug) = ["My-Post"] ∧
    normaliseSlug "My-Post" = some "my-post" ∧
    ("My-Post" : String) ≠ "my-post" := by
  refine ⟨by decide, by decide, by decide⟩
